import Mathlib

/-!
Verification of the parallel deployment orchestrator in `deploy.py`
(Open Developer Experience Kits).

The embedding models the orchestration core: `DeploymentWrapper` records,
dispatch-time validation (`verify_deployment` / `main`'s pre-flight loop),
playbook selection (`run_deployment`), forced termination
(`kill_deployments`), the status-polling loop (`check_deployments_status`),
the recap (`print_deployment_recap`) and the final exit-code / log-pulling
logic at the end of `main`.

External process state is made explicit on each record:
`pollResult` is the value `process.poll()` returns (`none` while the process
is still running, `some code` once it has exited), and `processExists` says
whether `os.kill` can still find the process (a process can have vanished
while `poll()` still reports `none`, which is exactly the race the
`ProcessLookupError` handler in `kill_deployments` is for).
Python-level exceptions (in particular the `AttributeError` raised by the
`deployment.name` access in `kill_deployments`) are modelled with
`Except Unit`.
-/

namespace Deploy

/-- `ERROR_EXIT_CODE = 1` in deploy.py. -/
def ERROR_EXIT_CODE : Int := 1

/-- The exit status `Popen.poll()` reports for a child killed by SIGTERM. -/
def SIGTERM_RETURNCODE : Int := -15

/-- One resolved deployment target, as consumed from the inventory handler:
the fields of the inventory object that `deploy.py` reads. -/
structure Inventory where
  cluster_name : String
  deployment : String
  is_single_node : Bool
  controller_ansible_user : String
  controller_ansible_host : String
  limit : Option String
deriving Repr, DecidableEq

/-- `DeploymentWrapper` from deploy.py, together with the state of its
external process.  `logOpen` tracks whether `log_file` is open.
The structure has exactly the attributes `__init__` defines: in particular
there is no `name` field, only `cluster_name`. -/
structure DeploymentWrapper where
  pollResult : Option Int
  processExists : Bool
  inventory : Inventory
  cluster_name : String
  playbook_file_name : String
  logOpen : Bool
  has_ended : Bool
  ended_successfully : Bool
deriving Repr, DecidableEq

/-- `verify_deployment`: the deployment directory exists, i.e. the referenced
deployment type is among the known deployment definitions. -/
def verify_deployment (known : List String) (deployment : String) : Bool :=
  known.contains deployment

/-- `extra_options_supported` from `run_deployment`: the allow-list of
deployment types supporting the extended 5G operations. -/
def extra_options_supported (deployment : String) : Bool :=
  ["pwek-all-in-one"].contains deployment

/-- The playbook decision chain in `run_deployment` (lines 200-213). -/
def select_playbook (deployment : String) (is_single_node cleanup redeploy : Bool) : String :=
  if extra_options_supported deployment && cleanup then
    "network_edge_5g_cleanup.yml"
  else if extra_options_supported deployment && redeploy then
    "network_edge_5g_redeploy.yml"
  else if is_single_node then
    "single_node_network_edge.yml"
  else
    "network_edge.yml"

/-- `run_deployment`: opens the log file, spawns the ansible process and
returns the fresh `DeploymentWrapper` (process running, log open, not
ended, not successful). -/
def run_deployment (cleanup redeploy : Bool) (inventory : Inventory) : DeploymentWrapper :=
  { pollResult := none
    processExists := true
    inventory := inventory
    cluster_name := inventory.cluster_name
    playbook_file_name :=
      select_playbook inventory.deployment inventory.is_single_node cleanup redeploy
    logOpen := true
    has_ended := false
    ended_successfully := false }

/-- One iteration of the loop body of `kill_deployments` on a single record.
If the process has already exited (`poll()` is not `None`) the record is
skipped.  Otherwise `os.kill` is attempted: if the process has vanished,
the `except ProcessLookupError` branch runs `logging.info(..., deployment.name)`
and `DeploymentWrapper` has no `name` attribute, so the access raises
`AttributeError`, modelled as `.error ()`.  If the process still exists it
is terminated and waited for, the record is marked ended and unsuccessful
and its log file is closed. -/
def kill_deployment_step (d : DeploymentWrapper) : Except Unit DeploymentWrapper :=
  if d.pollResult = none then
    if d.processExists then
      .ok { d with
              pollResult := some SIGTERM_RETURNCODE
              has_ended := true
              ended_successfully := false
              logOpen := false }
    else
      .error ()
  else
    .ok d

/-- `kill_deployments`: the loop over every record; an uncaught exception in
one iteration aborts the whole call. -/
def kill_deployments : List DeploymentWrapper → Except Unit (List DeploymentWrapper)
  | [] => .ok []
  | d :: ds =>
    match kill_deployment_step d with
    | .error e => .error e
    | .ok d2 =>
      match kill_deployments ds with
      | .error e => .error e
      | .ok ds2 => .ok (d2 :: ds2)

/-- `has_deployments_successful`, literally: first record with
`ended_successfully` false makes the whole answer false. -/
def has_deployments_successful : List DeploymentWrapper → Bool
  | [] => true
  | d :: ds =>
    if !d.ended_successfully then false else has_deployments_successful ds

/-- `has_deployments_ended`, literally. -/
def has_deployments_ended : List DeploymentWrapper → Bool
  | [] => true
  | d :: ds =>
    if !d.has_ended then false else has_deployments_ended ds

/-- The terminal update `check_deployments_status` applies to a record whose
process exited with `code`: close the log, mark ended, successful iff the
exit status is zero. -/
def end_record (d : DeploymentWrapper) (code : Int) : DeploymentWrapper :=
  { d with
      logOpen := false
      has_ended := true
      ended_successfully := code == 0 }

/-- The body of one iteration of the inner `for` loop of
`check_deployments_status`, given the result of `process.poll()` for the
record `d` at index `i`: a still-running or already-ended record is
skipped; a record that exited 0 is transitioned to the successful terminal
state; a record that exited nonzero is transitioned to the failed terminal
state, and with `exit_on_error` set `kill_deployments` is then invoked on
the whole (already updated) list. -/
def check_record_poll (exit_on_error : Bool) (ds : List DeploymentWrapper)
    (i : Nat) (d : DeploymentWrapper) :
    Option Int → Except Unit (List DeploymentWrapper)
  | none => .ok ds
  | some code =>
    if d.has_ended then
      .ok ds
    else if code == 0 then
      .ok (ds.set i (end_record d code))
    else if exit_on_error then
      kill_deployments (ds.set i (end_record d code))
    else
      .ok (ds.set i (end_record d code))

/-- Dispatch on whether index `i` is within the shared list. -/
def check_record (exit_on_error : Bool) (ds : List DeploymentWrapper) (i : Nat) :
    Option DeploymentWrapper → Except Unit (List DeploymentWrapper)
  | none => .ok ds
  | some d => check_record_poll exit_on_error ds i d d.pollResult

/-- One iteration of the inner `for` loop of `check_deployments_status`,
inspecting the record at index `i` of the (shared, mutated in place)
list. -/
def check_one (exit_on_error : Bool) (ds : List DeploymentWrapper) (i : Nat) :
    Except Unit (List DeploymentWrapper) :=
  check_record exit_on_error ds i ds[i]?

/-- The inner `for` loop of `check_deployments_status`, iterating the indices
`i, i+1, ..., i+gas-1` over the shared list. -/
def check_pass_from (exit_on_error : Bool) :
    Nat → Nat → List DeploymentWrapper → Except Unit (List DeploymentWrapper)
  | 0, _, ds => .ok ds
  | gas + 1, i, ds =>
    match check_one exit_on_error ds i with
    | .error e => .error e
    | .ok ds2 => check_pass_from exit_on_error gas (i + 1) ds2

/-- One full pass of the inner `for` loop over all indices of the list. -/
def check_pass (exit_on_error : Bool) (ds : List DeploymentWrapper) :
    Except Unit (List DeploymentWrapper) :=
  check_pass_from exit_on_error ds.length 0 ds

/-- The `while not has_deployments_ended(...)` polling loop of
`check_deployments_status`, with explicit fuel (each unit of fuel is one
poll interval): `none` means the loop did not terminate within the fuel. -/
def check_deployments_status (exit_on_error : Bool) :
    Nat → List DeploymentWrapper → Option (Except Unit (List DeploymentWrapper))
  | 0, _ => none
  | fuel + 1, ds =>
    if has_deployments_ended ds then
      some (.ok ds)
    else
      match check_pass exit_on_error ds with
      | .error e => some (.error e)
      | .ok ds2 => check_deployments_status exit_on_error fuel ds2

/-- The counting loop of `print_deployment_recap`:
(successful_count, failure_count). -/
def recap_counts (ds : List DeploymentWrapper) : Nat × Nat :=
  ds.foldl
    (fun acc d =>
      if d.ended_successfully then (acc.1 + 1, acc.2) else (acc.1, acc.2 + 1))
    (0, 0)

/-- `print_deployment_recap`'s reported numbers:
(deployment_count, successful_count, failure_count). -/
def print_deployment_recap (ds : List DeploymentWrapper) : Nat × Nat × Nat :=
  (ds.length, (recap_counts ds).1, (recap_counts ds).2)

/-- The pre-flight validation loop at the start of `main` (lines 403-407):
`sys.exit(ERROR_EXIT_CODE)` on the first inventory whose deployment type is
unknown, before anything is launched. -/
def validate_targets (known : List String) : List Inventory → Bool
  | [] => true
  | t :: ts =>
    if !(verify_deployment known t.deployment) then false
    else validate_targets known ts

/-- The dispatch phase of `main`: the pre-flight validation loop followed by
the launch loop that appends one `DeploymentWrapper` per inventory, in
input order.  `.error ()` is the `sys.exit(ERROR_EXIT_CODE)` taken before
any process is launched. -/
def dispatch_deployments (known : List String) (cleanup redeploy : Bool)
    (targets : List Inventory) : Except Unit (List DeploymentWrapper) :=
  if validate_targets known targets then
    .ok (targets.map (run_deployment cleanup redeploy))
  else
    .error ()

/-- `DeploymentWrapper.pull_logs`: the (remote user, remote host) pair handed
to the log-collection collaborator for this record's cluster. -/
def pull_logs (d : DeploymentWrapper) : String × String :=
  (d.inventory.controller_ansible_user, d.inventory.controller_ansible_host)

/-- The tail of `main` (lines 418-424): exit 0 when every deployment was
successful, otherwise call `pull_logs` on every wrapper in
`deployment_wrappers` and exit `ERROR_EXIT_CODE`.  Returns the exit code
together with the list of log-collection invocations made. -/
def main_final (ds : List DeploymentWrapper) : Int × List (String × String) :=
  if has_deployments_successful ds then
    (0, [])
  else
    (ERROR_EXIT_CODE, ds.map pull_logs)

/-! Concrete instances used to evaluate the model on closed inputs. -/

/-- A sample single-node target of the default `dek` deployment type. -/
def inv_a : Inventory :=
  { cluster_name := "clusterA"
    deployment := "dek"
    is_single_node := true
    controller_ansible_user := "userA"
    controller_ansible_host := "hostA"
    limit := none }

/-- A second sample target, multi-node, on a different host. -/
def inv_b : Inventory :=
  { cluster_name := "clusterB"
    deployment := "dek"
    is_single_node := false
    controller_ansible_user := "userB"
    controller_ansible_host := "hostB"
    limit := none }

/-- A record whose process exited 0 and that the monitor already transitioned
to the successful terminal state (log closed). -/
def success_record : DeploymentWrapper :=
  { pollResult := some 0
    processExists := false
    inventory := inv_a
    cluster_name := "clusterA"
    playbook_file_name := "single_node_network_edge.yml"
    logOpen := false
    has_ended := true
    ended_successfully := true }

/-- A record whose process exited 2 and that the monitor already transitioned
to the failed terminal state (log closed). -/
def failed_record : DeploymentWrapper :=
  { pollResult := some 2
    processExists := false
    inventory := inv_b
    cluster_name := "clusterB"
    playbook_file_name := "network_edge.yml"
    logOpen := false
    has_ended := true
    ended_successfully := false }

/-- A record whose process still reports `poll() = None` but has vanished:
`os.kill` on it raises `ProcessLookupError`. -/
def vanished_record : DeploymentWrapper :=
  { pollResult := none
    processExists := false
    inventory := inv_a
    cluster_name := "clusterA"
    playbook_file_name := "single_node_network_edge.yml"
    logOpen := true
    has_ended := false
    ended_successfully := false }

/-- A dispatched record whose process just exited with status 0 and that the
monitor has not yet inspected. -/
def exited_record : DeploymentWrapper :=
  { pollResult := some 0
    processExists := true
    inventory := inv_a
    cluster_name := "clusterA"
    playbook_file_name := "single_node_network_edge.yml"
    logOpen := true
    has_ended := false
    ended_successfully := false }

/-- `exited_record` after the monitor's terminal transition. -/
def exited_record_done : DeploymentWrapper :=
  { exited_record with
      logOpen := false
      has_ended := true
      ended_successfully := true }

/-! Helper lemmas. -/

theorem has_deployments_successful_iff (ds : List DeploymentWrapper) :
    has_deployments_successful ds = true ↔ ∀ d ∈ ds, d.ended_successfully = true := by
  induction ds with
  | nil => simp [has_deployments_successful]
  | cons d ds ih =>
    cases h : d.ended_successfully <;>
      simp [has_deployments_successful, h, ih]

theorem has_deployments_ended_iff (ds : List DeploymentWrapper) :
    has_deployments_ended ds = true ↔ ∀ d ∈ ds, d.has_ended = true := by
  induction ds with
  | nil => simp [has_deployments_ended]
  | cons d ds ih =>
    cases h : d.has_ended <;>
      simp [has_deployments_ended, h, ih]

theorem validate_targets_iff (known : List String) (ts : List Inventory) :
    validate_targets known ts = true ↔
      ∀ t ∈ ts, verify_deployment known t.deployment = true := by
  induction ts with
  | nil => simp [validate_targets]
  | cons t ts ih =>
    cases h : verify_deployment known t.deployment <;>
      simp [validate_targets, h, ih]

/-! Claim theorems. -/

/-- Claim C1: the orchestrator's process exit code is 0 exactly when every
dispatched `DeploymentWrapper` has `ended_successfully` true, and is 1
otherwise. -/
theorem main_exit_code_iff_all_successful (ds : List DeploymentWrapper) :
    ((main_final ds).1 = 0 ↔ ∀ d ∈ ds, d.ended_successfully = true) ∧
    ((main_final ds).1 = 1 ↔ ¬ ∀ d ∈ ds, d.ended_successfully = true) := by
  by_cases hp : ∀ d ∈ ds, d.ended_successfully = true
  · have hs : has_deployments_successful ds = true :=
      (has_deployments_successful_iff ds).mpr hp
    have h0 : (main_final ds).1 = 0 := by simp [main_final, hs]
    refine ⟨⟨fun _ => hp, fun _ => h0⟩, ⟨fun h1 => ?_, fun hn => absurd hp hn⟩⟩
    rw [h0] at h1
    exact absurd h1 (by decide)
  · have hs : has_deployments_successful ds = false := by
      cases h : has_deployments_successful ds
      · rfl
      · exact absurd ((has_deployments_successful_iff ds).mp h) hp
    have h1 : (main_final ds).1 = 1 := by simp [main_final, hs, ERROR_EXIT_CODE]
    refine ⟨⟨fun h0 => ?_, fun hp2 => absurd hp2 hp⟩, ⟨fun _ => hp, fun _ => h1⟩⟩
    rw [h1] at h0
    exact absurd h0 (by decide)

/-- Witness for C1: a run whose only record succeeded exits 0; a run with one
failed record exits 1. -/
theorem main_exit_code_iff_all_successful_witness :
    (main_final [success_record]).1 = 0 ∧
    (main_final [success_record, failed_record]).1 = 1 :=
  ⟨(main_exit_code_iff_all_successful [success_record]).1.mpr (by decide),
   (main_exit_code_iff_all_successful [success_record, failed_record]).2.mpr
     (by decide)⟩

/-- Claim C5: the playbook decision table of `run_deployment`: extended-ops
type with cleanup flag gets the cleanup playbook; else extended-ops type
with redeploy flag gets the redeploy playbook; else a single-node target
gets the single-node playbook; else the general multi-node playbook. -/
theorem select_playbook_decision_table (dep : String) (s c r : Bool) :
    (extra_options_supported dep = true ∧ c = true →
      select_playbook dep s c r = "network_edge_5g_cleanup.yml") ∧
    (extra_options_supported dep = true ∧ c = false ∧ r = true →
      select_playbook dep s c r = "network_edge_5g_redeploy.yml") ∧
    ((extra_options_supported dep = false ∨ (c = false ∧ r = false)) → s = true →
      select_playbook dep s c r = "single_node_network_edge.yml") ∧
    ((extra_options_supported dep = false ∨ (c = false ∧ r = false)) → s = false →
      select_playbook dep s c r = "network_edge.yml") := by
  cases he : extra_options_supported dep <;> cases c <;> cases r <;> cases s <;>
    simp [select_playbook, he]

/-- Witness for C5: concrete rows of the decision table. -/
theorem select_playbook_decision_table_witness :
    select_playbook "pwek-all-in-one" false true false = "network_edge_5g_cleanup.yml" ∧
    select_playbook "dek" true false false = "single_node_network_edge.yml" :=
  ⟨(select_playbook_decision_table "pwek-all-in-one" false true false).1 ⟨rfl, rfl⟩,
   (select_playbook_decision_table "dek" true false false).2.2.1 (Or.inl rfl) rfl⟩

/-- Claim C9: with zero dispatched targets, `has_deployments_ended` and
`has_deployments_successful` are vacuously true, the polling loop returns
immediately without a pass, the recap reports 0 total, 0 successful and
0 failed, and the run exits 0. -/
theorem empty_run_vacuous_success :
    has_deployments_ended [] = true ∧
    has_deployments_successful [] = true ∧
    check_deployments_status false 1 [] = some (.ok []) ∧
    check_deployments_status true 1 [] = some (.ok []) ∧
    print_deployment_recap [] = (0, 0, 0) ∧
    (main_final []).1 = 0 :=
  ⟨rfl, rfl, rfl, rfl, rfl, rfl⟩

/-- Claim C10: `DeploymentWrapper` defines `cluster_name` but never `name`,
so the `ProcessLookupError` branch of `kill_deployments`, which logs via
`deployment.name`, raises `AttributeError` for every record whose process
disappeared between the liveness check and the kill: the branch is not
total. -/
theorem kill_vanished_raises_attribute_error (d : DeploymentWrapper)
    (ds : List DeploymentWrapper) (h1 : d.pollResult = none)
    (h2 : d.processExists = false) :
    kill_deployment_step d = .error () ∧
    kill_deployments (d :: ds) = .error () := by
  have hstep : kill_deployment_step d = .error () := by
    simp [kill_deployment_step, h1, h2]
  refine ⟨hstep, ?_⟩
  simp only [kill_deployments, hstep]

/-- Witness for C10: the concrete vanished record makes `kill_deployments`
raise. -/
theorem kill_vanished_raises_attribute_error_witness :
    vanished_record.pollResult = none ∧
    vanished_record.processExists = false ∧
    kill_deployments [vanished_record] = .error () :=
  ⟨rfl, rfl, (kill_vanished_raises_attribute_error vanished_record [] rfl rfl).2⟩

/-- Claim C3, evaluated at the failing input: for a record whose process no
longer exists, `kill_deployments` does not log-and-continue and does not
mark the record ended and unsuccessful; the call aborts with the
`AttributeError` from the `deployment.name` access, leaving the record
running with its log sink open. -/
theorem kill_deployments_vanished_record_fails :
    kill_deployments [vanished_record] = .error () ∧
    vanished_record.has_ended = false ∧
    vanished_record.ended_successfully = false ∧
    vanished_record.logOpen = true :=
  ⟨rfl, rfl, rfl, rfl⟩

/-- Claim C8, counterexample: with one successful and one failed record the
run exits 1 but the log-collection collaborator is invoked for BOTH
clusters, not only for the failed one as the claim states. -/
theorem pull_logs_not_only_failed :
    (main_final [success_record, failed_record]).1 = ERROR_EXIT_CODE ∧
    (main_final [success_record, failed_record]).2 =
      [("userA", "hostA"), ("userB", "hostB")] ∧
    ([success_record, failed_record].filter
        (fun d => !d.ended_successfully)).map pull_logs = [("userB", "hostB")] ∧
    (main_final [success_record, failed_record]).2 ≠
      ([success_record, failed_record].filter
        (fun d => !d.ended_successfully)).map pull_logs := by
  refine ⟨rfl, rfl, rfl, by decide⟩

/-- Claim C8 as amended: when the run exits nonzero because some deployment
failed, `pull_logs` is invoked once per dispatched record, in order, for
every cluster (successful ones included), each invocation carrying that
cluster's remote user and host. -/
theorem pull_logs_every_record_on_failure (ds : List DeploymentWrapper)
    (h : has_deployments_successful ds = false) :
    (main_final ds).1 = ERROR_EXIT_CODE ∧
    (main_final ds).2 = ds.map pull_logs := by
  simp [main_final, h]

/-- Witness for the amended C8. -/
theorem pull_logs_every_record_on_failure_witness :
    (main_final [success_record, failed_record]).2 =
      [success_record, failed_record].map pull_logs :=
  (pull_logs_every_record_on_failure [success_record, failed_record] rfl).2

/-- Claim C2: an unknown deployment type in any target aborts the dispatch
before any process is launched and no record is created; when every
referenced type exists, exactly one record per target is created, in input
order. -/
theorem dispatch_preflight (known : List String) (cleanup redeploy : Bool)
    (targets : List Inventory) :
    ((∃ t ∈ targets, verify_deployment known t.deployment = false) →
      dispatch_deployments known cleanup redeploy targets = .error ()) ∧
    ((∀ t ∈ targets, verify_deployment known t.deployment = true) →
      dispatch_deployments known cleanup redeploy targets =
        .ok (targets.map (run_deployment cleanup redeploy)) ∧
      (targets.map (run_deployment cleanup redeploy)).length = targets.length ∧
      ∀ i : Nat, (targets.map (run_deployment cleanup redeploy))[i]? =
        targets[i]?.map (run_deployment cleanup redeploy)) := by
  constructor
  · rintro ⟨t, ht, hv⟩
    have hval : validate_targets known targets = false := by
      cases h : validate_targets known targets
      · rfl
      · have := (validate_targets_iff known targets).mp h t ht
        rw [hv] at this
        exact absurd this (by decide)
    simp [dispatch_deployments, hval]
  · intro hall
    have hval : validate_targets known targets = true :=
      (validate_targets_iff known targets).mpr hall
    refine ⟨by simp [dispatch_deployments, hval], by simp, fun i => by simp⟩

/-- Witness for C2: a target with unknown type `dek` against an empty set of
known deployments aborts; the same target against `["dek"]` produces
exactly one record. -/
theorem dispatch_preflight_witness :
    dispatch_deployments [] false false [inv_a] = .error () ∧
    dispatch_deployments ["dek"] false false [inv_a] =
      .ok ([inv_a].map (run_deployment false false)) :=
  ⟨(dispatch_preflight [] false false [inv_a]).1
      ⟨inv_a, List.mem_singleton_self inv_a, rfl⟩,
   ((dispatch_preflight ["dek"] false false [inv_a]).2
      (by intro t ht; rw [List.mem_singleton] at ht; subst ht; rfl)).1⟩

/-- A record produced by a successful `kill_deployment_step` never reports a
still-running process. -/
theorem kill_deployment_step_poll_ne_none (d d2 : DeploymentWrapper)
    (h : kill_deployment_step d = .ok d2) : d2.pollResult ≠ none := by
  cases hpoll : d.pollResult <;> cases hex : d.processExists <;>
    simp [kill_deployment_step, hpoll, hex] at h <;>
    subst h <;> simp [hpoll]

/-- Every record in the output of a successful `kill_deployments` has an
exited process. -/
theorem kill_deployments_poll_ne_none (ds ds2 : List DeploymentWrapper)
    (h : kill_deployments ds = .ok ds2) : ∀ d ∈ ds2, d.pollResult ≠ none := by
  induction ds generalizing ds2 with
  | nil =>
    simp [kill_deployments] at h
    subst h
    intro d hd
    exact absurd hd (by simp)
  | cons d ds ih =>
    rw [show kill_deployments (d :: ds) =
          (match kill_deployment_step d with
           | .error e => .error e
           | .ok d2 =>
             match kill_deployments ds with
             | .error e => .error e
             | .ok ds2 => .ok (d2 :: ds2)) from rfl] at h
    cases hstep : kill_deployment_step d with
    | error e => rw [hstep] at h; exact absurd h (by simp)
    | ok d2 =>
      rw [hstep] at h
      cases hrest : kill_deployments ds with
      | error e => rw [hrest] at h; exact absurd h (by simp)
      | ok ds3 =>
        rw [hrest] at h
        simp only [Except.ok.injEq] at h
        subst h
        intro x hx
        rcases List.mem_cons.mp hx with hx | hx
        · subst hx
          exact kill_deployment_step_poll_ne_none d x hstep
        · exact ih ds3 hrest x hx

/-- `kill_deployments` leaves a list of records with exited processes
untouched. -/
theorem kill_deployments_fixed (ds : List DeploymentWrapper)
    (h : ∀ d ∈ ds, d.pollResult ≠ none) : kill_deployments ds = .ok ds := by
  induction ds with
  | nil => rfl
  | cons d ds ih =>
    have hd : d.pollResult ≠ none := h d (List.mem_cons_self d ds)
    have hstep : kill_deployment_step d = .ok d := by
      unfold kill_deployment_step
      rw [if_neg hd]
    have hrest : kill_deployments ds = .ok ds :=
      ih fun x hx => h x (List.mem_cons_of_mem d hx)
    rw [show kill_deployments (d :: ds) =
          (match kill_deployment_step d with
           | .error e => .error e
           | .ok d2 =>
             match kill_deployments ds with
             | .error e => .error e
             | .ok ds2 => .ok (d2 :: ds2)) from rfl]
    rw [hstep, hrest]

/-- Claim C6: `kill_deployments` is a no-op on an already-ended record (its
fields, including the closed log sink, are returned unchanged), and
applying `kill_deployments` twice yields the same record states as
applying it once.  The hypothesis is the reachable-state invariant that an
ended record's process has been reaped (`has_ended` is only ever set after
`poll()` returned an exit status or after `wait()`). -/
theorem kill_deployments_idempotent (ds : List DeploymentWrapper)
    (hinv : ∀ d ∈ ds, d.has_ended = true → d.pollResult ≠ none) :
    (∀ d ∈ ds, d.has_ended = true → kill_deployment_step d = .ok d) ∧
    (∀ ds2, kill_deployments ds = .ok ds2 → kill_deployments ds2 = .ok ds2) := by
  constructor
  · intro d hd hend
    unfold kill_deployment_step
    rw [if_neg (hinv d hd hend)]
  · intro ds2 h
    exact kill_deployments_fixed ds2 (kill_deployments_poll_ne_none ds ds2 h)

/-- Witness for C6: a concrete ended record is left untouched, and the
second application of `kill_deployments` equals the first. -/
theorem kill_deployments_idempotent_witness :
    kill_deployment_step success_record = .ok success_record ∧
    kill_deployments [success_record] = .ok [success_record] :=
  ⟨(kill_deployments_idempotent [success_record] (by decide)).1
      success_record (List.mem_singleton_self success_record) rfl,
   (kill_deployments_idempotent [success_record] (by decide)).2
      [success_record] rfl⟩

/-- Inversion: a successful `kill_deployments` on a nonempty list splits into
a successful step on the head and a successful call on the tail. -/
theorem kill_deployments_cons_ok (d : DeploymentWrapper)
    (ds out : List DeploymentWrapper)
    (h : kill_deployments (d :: ds) = .ok out) :
    ∃ d2 ds2, kill_deployment_step d = .ok d2 ∧ kill_deployments ds = .ok ds2 ∧
      out = d2 :: ds2 := by
  rw [show kill_deployments (d :: ds) =
        (match kill_deployment_step d with
         | .error e => .error e
         | .ok d2 =>
           match kill_deployments ds with
           | .error e => .error e
           | .ok ds2 => .ok (d2 :: ds2)) from rfl] at h
  cases hstep : kill_deployment_step d with
  | error e => rw [hstep] at h; exact absurd h (by simp)
  | ok d2 =>
    rw [hstep] at h
    cases hrest : kill_deployments ds with
    | error e => rw [hrest] at h; exact absurd h (by simp)
    | ok ds2 =>
      rw [hrest] at h
      simp only [Except.ok.injEq] at h
      exact ⟨d2, ds2, rfl, rfl, h.symm⟩

/-- `kill_deployment_step` skips a record whose process already exited. -/
theorem kill_deployment_step_exited (d : DeploymentWrapper)
    (hpoll : d.pollResult ≠ none) : kill_deployment_step d = .ok d := by
  unfold kill_deployment_step
  rw [if_neg hpoll]

/-- Reduction of `check_one` when the index is out of range. -/
theorem check_one_none (eoe : Bool) (ds : List DeploymentWrapper) (i : Nat)
    (hi : ds[i]? = none) : check_one eoe ds i = .ok ds := by
  rw [check_one, hi, check_record]

/-- Reduction of `check_one` on a still-running record. -/
theorem check_one_running (eoe : Bool) (ds : List DeploymentWrapper) (i : Nat)
    (d : DeploymentWrapper) (hi : ds[i]? = some d)
    (hpoll : d.pollResult = none) : check_one eoe ds i = .ok ds := by
  rw [check_one, hi, check_record, hpoll, check_record_poll]

/-- Reduction of `check_one` on a record whose process exited with `code`. -/
theorem check_one_some (eoe : Bool) (ds : List DeploymentWrapper) (i : Nat)
    (d : DeploymentWrapper) (code : Int) (hi : ds[i]? = some d)
    (hpoll : d.pollResult = some code) :
    check_one eoe ds i =
      (if d.has_ended then .ok ds
       else if code == 0 then .ok (ds.set i (end_record d code))
       else if eoe then kill_deployments (ds.set i (end_record d code))
       else .ok (ds.set i (end_record d code))) := by
  rw [check_one, hi, check_record, hpoll, check_record_poll]

/-- Inversion: a successful `check_pass_from` with positive gas splits into a
successful `check_one` followed by the rest of the pass. -/
theorem check_pass_from_succ_ok (eoe : Bool) (gas i : Nat)
    (ds out : List DeploymentWrapper)
    (h : check_pass_from eoe (gas + 1) i ds = .ok out) :
    ∃ ds2, check_one eoe ds i = .ok ds2 ∧
      check_pass_from eoe gas (i + 1) ds2 = .ok out := by
  rw [show check_pass_from eoe (gas + 1) i ds =
        (match check_one eoe ds i with
         | .error e => .error e
         | .ok ds2 => check_pass_from eoe gas (i + 1) ds2) from rfl] at h
  cases hone : check_one eoe ds i with
  | error e => rw [hone] at h; exact absurd h (by simp)
  | ok ds2 =>
    rw [hone] at h
    exact ⟨ds2, rfl, h⟩

/-- Records whose process already exited keep their exact state and position
across a successful `kill_deployments`. -/
theorem kill_deployments_stable (ds : List DeploymentWrapper) :
    ∀ (out : List DeploymentWrapper) (j : Nat) (d : DeploymentWrapper),
      kill_deployments ds = .ok out → ds[j]? = some d →
      d.pollResult ≠ none → out[j]? = some d := by
  induction ds with
  | nil =>
    intro out j d h hj hpoll
    exact absurd hj (by simp)
  | cons d0 ds ih =>
    intro out j d h hj hpoll
    obtain ⟨d2, ds2, hstep, hrest, hout⟩ := kill_deployments_cons_ok d0 ds out h
    subst hout
    cases j with
    | zero =>
      simp only [List.getElem?_cons_zero, Option.some.injEq] at hj
      subst hj
      rw [kill_deployment_step_exited d0 hpoll] at hstep
      simp only [Except.ok.injEq] at hstep
      subst hstep
      simp
    | succ j =>
      simp only [List.getElem?_cons_succ] at hj ⊢
      exact ih ds2 j d hrest hj hpoll

/-- A record that is already ended stays present and ended, positionally,
across a successful `kill_deployments`. -/
theorem kill_deployments_mono (ds : List DeploymentWrapper) :
    ∀ (out : List DeploymentWrapper) (j : Nat) (d : DeploymentWrapper),
      kill_deployments ds = .ok out → ds[j]? = some d →
      d.has_ended = true → ∃ d2, out[j]? = some d2 ∧ d2.has_ended = true := by
  induction ds with
  | nil =>
    intro out j d h hj hend
    exact absurd hj (by simp)
  | cons d0 ds ih =>
    intro out j d h hj hend
    obtain ⟨d2, ds2, hstep, hrest, hout⟩ := kill_deployments_cons_ok d0 ds out h
    subst hout
    cases j with
    | zero =>
      simp only [List.getElem?_cons_zero, Option.some.injEq] at hj
      subst hj
      refine ⟨d2, by simp, ?_⟩
      cases hpoll : d0.pollResult <;> cases hex : d0.processExists <;>
        simp [kill_deployment_step, hpoll, hex] at hstep <;>
        subst hstep <;> simp [hend]
    | succ j =>
      simp only [List.getElem?_cons_succ] at hj ⊢
      exact ih ds2 j d hrest hj hend

/-- A record at an index other than the inspected one, whose process already
exited, keeps its exact state and position across `check_one`. -/
theorem check_one_stable (eoe : Bool) (ds out : List DeploymentWrapper)
    (i j : Nat) (d : DeploymentWrapper) (h : check_one eoe ds i = .ok out)
    (hj : ds[j]? = some d) (hpoll : d.pollResult ≠ none) (hne : j ≠ i) :
    out[j]? = some d := by
  cases hi : ds[i]? with
  | none =>
    rw [check_one_none eoe ds i hi] at h
    simp only [Except.ok.injEq] at h
    subst h
    exact hj
  | some di =>
    cases hpi : di.pollResult with
    | none =>
      rw [check_one_running eoe ds i di hi hpi] at h
      simp only [Except.ok.injEq] at h
      subst h
      exact hj
    | some code =>
      rw [check_one_some eoe ds i di code hi hpi] at h
      have hset : (ds.set i (end_record di code))[j]? = some d := by
        rw [List.getElem?_set_ne (Ne.symm hne)]
        exact hj
      by_cases hend : di.has_ended = true
      · rw [if_pos hend] at h
        simp only [Except.ok.injEq] at h
        subst h
        exact hj
      · rw [if_neg hend] at h
        by_cases hc : (code == 0) = true
        · rw [if_pos hc] at h
          simp only [Except.ok.injEq] at h
          subst h
          exact hset
        · rw [if_neg hc] at h
          by_cases he : eoe = true
          · rw [if_pos he] at h
            exact kill_deployments_stable _ out j d h hset hpoll
          · rw [if_neg he] at h
            simp only [Except.ok.injEq] at h
            subst h
            exact hset

/-- `check_one` at index `i` transitions an unended exited record at `i` to
its terminal state, whatever `exit_on_error` is. -/
theorem check_one_updates (eoe : Bool) (ds out : List DeploymentWrapper)
    (i : Nat) (d : DeploymentWrapper) (code : Int)
    (hi : ds[i]? = some d) (hend : d.has_ended = false)
    (hpoll : d.pollResult = some code) (h : check_one eoe ds i = .ok out) :
    out[i]? = some (end_record d code) := by
  have hlt : i < ds.length := (List.getElem?_eq_some_iff.mp hi).1
  have hset : (ds.set i (end_record d code))[i]? = some (end_record d code) := by
    simp [hlt]
  rw [check_one_some eoe ds i d code hi hpoll] at h
  rw [if_neg (by simp [hend])] at h
  by_cases hc : (code == 0) = true
  · rw [if_pos hc] at h
    simp only [Except.ok.injEq] at h
    subst h
    exact hset
  · rw [if_neg hc] at h
    by_cases he : eoe = true
    · rw [if_pos he] at h
      refine kill_deployments_stable _ out i (end_record d code) h hset ?_
      simp [end_record, hpoll]
    · rw [if_neg he] at h
      simp only [Except.ok.injEq] at h
      subst h
      exact hset

/-- The window lemma for the inner `for` loop: a record whose process exited
with `code` ends up exactly as `end_record d code` if its index is scanned
by the remaining iterations and it had not ended yet, and is untouched
otherwise. -/
theorem check_pass_from_spec (eoe : Bool) :
    ∀ (gas i : Nat) (ds out : List DeploymentWrapper) (j : Nat)
      (d : DeploymentWrapper) (code : Int),
      check_pass_from eoe gas i ds = .ok out →
      ds[j]? = some d → d.pollResult = some code →
      out[j]? = some (if i ≤ j ∧ j < i + gas ∧ d.has_ended = false
                      then end_record d code else d) := by
  intro gas
  induction gas with
  | zero =>
    intro i ds out j d code h hj hpoll
    simp only [check_pass_from, Except.ok.injEq] at h
    subst h
    rw [if_neg (by rintro ⟨h1, h2, _⟩; omega)]
    exact hj
  | succ gas ih =>
    intro i ds out j d code h hj hpoll
    obtain ⟨ds2, hone, hrest⟩ := check_pass_from_succ_ok eoe gas i ds out h
    by_cases hji : j = i
    · subst hji
      by_cases hend : d.has_ended = true
      · have hskip : check_one eoe ds j = .ok ds := by
          rw [check_one_some eoe ds j d code hj hpoll, if_pos hend]
        rw [hskip] at hone
        simp only [Except.ok.injEq] at hone
        subst hone
        have hres := ih (j + 1) ds out j d code hrest hj hpoll
        rw [if_neg (by rintro ⟨h1, h2, _⟩; omega)] at hres
        rw [if_neg (by simp [hend])]
        exact hres
      · have hend2 : d.has_ended = false := by
          cases hb : d.has_ended
          · rfl
          · exact absurd hb hend
        have hupd : ds2[j]? = some (end_record d code) :=
          check_one_updates eoe ds ds2 j d code hj hend2 hpoll hone
        have hpoll2 : (end_record d code).pollResult = some code := by
          simp [end_record, hpoll]
        have hres := ih (j + 1) ds2 out j (end_record d code) code hrest hupd hpoll2
        rw [if_neg (by rintro ⟨h1, h2, _⟩; omega)] at hres
        rw [if_pos ⟨Nat.le_refl j, by omega, hend2⟩]
        exact hres
    · have hstab : ds2[j]? = some d :=
        check_one_stable eoe ds ds2 i j d hone hj (by simp [hpoll]) hji
      have hres := ih (i + 1) ds2 out j d code hrest hstab hpoll
      by_cases hc : i + 1 ≤ j ∧ j < i + 1 + gas ∧ d.has_ended = false
      · rw [if_pos hc] at hres
        rw [if_pos ⟨by omega, by omega, hc.2.2⟩]
        exact hres
      · rw [if_neg hc] at hres
        have hnc : ¬(i ≤ j ∧ j < i + (gas + 1) ∧ d.has_ended = false) := by
          rintro ⟨h1, h2, h3⟩
          exact hc ⟨by omega, by omega, h3⟩
        rw [if_neg hnc]
        exact hres

/-- Each full pass of the monitor transitions every unended exited record to
its terminal state, in place. -/
theorem check_pass_spec (eoe : Bool) (ds out : List DeploymentWrapper)
    (j : Nat) (d : DeploymentWrapper) (code : Int)
    (h : check_pass eoe ds = .ok out) (hj : ds[j]? = some d)
    (hend : d.has_ended = false) (hpoll : d.pollResult = some code) :
    out[j]? = some (end_record d code) := by
  have hlt : j < ds.length := (List.getElem?_eq_some_iff.mp hj).1
  have hres := check_pass_from_spec eoe ds.length 0 ds out j d code h hj hpoll
  rw [if_pos ⟨Nat.zero_le j, by omega, hend⟩] at hres
  exact hres

/-- Whenever the polling loop returns normally, every record has ended. -/
theorem check_status_ends (eoe : Bool) :
    ∀ (fuel : Nat) (ds out : List DeploymentWrapper),
      check_deployments_status eoe fuel ds = some (.ok out) →
      has_deployments_ended out = true := by
  intro fuel
  induction fuel with
  | zero =>
    intro ds out h
    exact absurd h (by simp [check_deployments_status])
  | succ fuel ih =>
    intro ds out h
    unfold check_deployments_status at h
    by_cases hend : has_deployments_ended ds = true
    · rw [if_pos hend] at h
      simp only [Option.some.injEq, Except.ok.injEq] at h
      subst h
      exact hend
    · rw [if_neg hend] at h
      cases hp : check_pass eoe ds with
      | error e => rw [hp] at h; exact absurd h (by simp)
      | ok ds2 => rw [hp] at h; exact ih ds2 out h

/-- Claim C4: the status-monitoring loop returns only when every record's
`has_ended` is true; and on each pass, every non-ended record whose
process exited gets `has_ended` set, `ended_successfully` set exactly when
the exit status was 0, and its log sink closed. -/
theorem check_deployments_status_spec (eoe : Bool) :
    (∀ (fuel : Nat) (ds out : List DeploymentWrapper),
      check_deployments_status eoe fuel ds = some (.ok out) →
      has_deployments_ended out = true) ∧
    (∀ (ds out : List DeploymentWrapper) (i : Nat) (d : DeploymentWrapper)
      (code : Int),
      ds[i]? = some d → d.has_ended = false → d.pollResult = some code →
      check_pass eoe ds = .ok out →
      out[i]? = some { d with
                         logOpen := false
                         has_ended := true
                         ended_successfully := code == 0 }) := by
  refine ⟨check_status_ends eoe, ?_⟩
  intro ds out i d code hi hend hpoll h
  exact check_pass_spec eoe ds out i d code h hi hend hpoll

/-- Witness for C4: a single record that exited 0 is transitioned by one pass
and the loop then returns with every record ended. -/
theorem check_deployments_status_spec_witness :
    has_deployments_ended [exited_record_done] = true ∧
    ([exited_record_done] : List DeploymentWrapper)[0]? =
      some { exited_record with
               logOpen := false
               has_ended := true
               ended_successfully := ((0 : Int) == 0) } :=
  ⟨(check_deployments_status_spec false).1 2 [exited_record]
      [exited_record_done] rfl,
   (check_deployments_status_spec false).2 [exited_record]
      [exited_record_done] 0 exited_record 0 rfl rfl rfl rfl⟩

/-- Setting one element preserves a pointwise property of the list. -/
theorem forall_mem_set {ds : List DeploymentWrapper} {e : DeploymentWrapper}
    {P : DeploymentWrapper → Prop} (hall : ∀ d ∈ ds, P d) (he : P e) (i : Nat) :
    ∀ d ∈ ds.set i e, P d := fun d hd =>
  (List.mem_or_eq_of_mem_set hd).elim (hall d) (fun h => h ▸ he)

/-- `kill_deployment_step` preserves the log/terminal invariant. -/
theorem kill_deployment_step_log (d d2 : DeploymentWrapper)
    (hd : d.logOpen = !d.has_ended) (h : kill_deployment_step d = .ok d2) :
    d2.logOpen = !d2.has_ended := by
  cases hpoll : d.pollResult <;> cases hex : d.processExists <;>
    simp [kill_deployment_step, hpoll, hex] at h <;>
    subst h <;> simp [hd]

/-- `kill_deployments` preserves the log/terminal invariant. -/
theorem kill_deployments_log (ds : List DeploymentWrapper) :
    ∀ out : List DeploymentWrapper, (∀ d ∈ ds, d.logOpen = !d.has_ended) →
      kill_deployments ds = .ok out → ∀ d ∈ out, d.logOpen = !d.has_ended := by
  induction ds with
  | nil =>
    intro out _ h
    simp only [kill_deployments, Except.ok.injEq] at h
    subst h
    intro d hd
    exact absurd hd (by simp)
  | cons d0 ds ih =>
    intro out hall h
    obtain ⟨d2, ds2, hstep, hrest, hout⟩ := kill_deployments_cons_ok d0 ds out h
    subst hout
    intro x hx
    rcases List.mem_cons.mp hx with hx | hx
    · subst hx
      exact kill_deployment_step_log d0 x
        (hall d0 (List.mem_cons_self d0 ds)) hstep
    · exact ih ds2 (fun y hy => hall y (List.mem_cons_of_mem d0 hy)) hrest x hx

/-- The terminal transition itself satisfies the log/terminal invariant. -/
theorem end_record_log (d : DeploymentWrapper) (code : Int) :
    (end_record d code).logOpen = !(end_record d code).has_ended := by
  simp [end_record]

/-- `check_one` preserves the log/terminal invariant. -/
theorem check_one_log (eoe : Bool) (ds out : List DeploymentWrapper) (i : Nat)
    (hall : ∀ d ∈ ds, d.logOpen = !d.has_ended)
    (h : check_one eoe ds i = .ok out) :
    ∀ d ∈ out, d.logOpen = !d.has_ended := by
  cases hi : ds[i]? with
  | none =>
    rw [check_one_none eoe ds i hi] at h
    simp only [Except.ok.injEq] at h
    subst h
    exact hall
  | some d0 =>
    cases hpoll : d0.pollResult with
    | none =>
      rw [check_one_running eoe ds i d0 hi hpoll] at h
      simp only [Except.ok.injEq] at h
      subst h
      exact hall
    | some code =>
      rw [check_one_some eoe ds i d0 code hi hpoll] at h
      have hset : ∀ d ∈ ds.set i (end_record d0 code), d.logOpen = !d.has_ended :=
        forall_mem_set hall (end_record_log d0 code) i
      by_cases hend : d0.has_ended = true
      · rw [if_pos hend] at h
        simp only [Except.ok.injEq] at h
        subst h
        exact hall
      · rw [if_neg hend] at h
        by_cases hc : (code == 0) = true
        · rw [if_pos hc] at h
          simp only [Except.ok.injEq] at h
          subst h
          exact hset
        · rw [if_neg hc] at h
          by_cases he : eoe = true
          · rw [if_pos he] at h
            exact kill_deployments_log _ out hset h
          · rw [if_neg he] at h
            simp only [Except.ok.injEq] at h
            subst h
            exact hset

/-- The inner loop preserves the log/terminal invariant. -/
theorem check_pass_from_log (eoe : Bool) :
    ∀ (gas i : Nat) (ds out : List DeploymentWrapper),
      (∀ d ∈ ds, d.logOpen = !d.has_ended) →
      check_pass_from eoe gas i ds = .ok out →
      ∀ d ∈ out, d.logOpen = !d.has_ended := by
  intro gas
  induction gas with
  | zero =>
    intro i ds out hall h
    simp only [check_pass_from, Except.ok.injEq] at h
    subst h
    exact hall
  | succ gas ih =>
    intro i ds out hall h
    obtain ⟨ds2, hone, hrest⟩ := check_pass_from_succ_ok eoe gas i ds out h
    exact ih (i + 1) ds2 out (check_one_log eoe ds ds2 i hall hone) hrest

/-- An ended record stays present and ended, positionally, across
`check_one`. -/
theorem check_one_mono (eoe : Bool) (ds out : List DeploymentWrapper)
    (i j : Nat) (d : DeploymentWrapper) (h : check_one eoe ds i = .ok out)
    (hj : ds[j]? = some d) (hend : d.has_ended = true) :
    ∃ d2, out[j]? = some d2 ∧ d2.has_ended = true := by
  cases hi : ds[i]? with
  | none =>
    rw [check_one_none eoe ds i hi] at h
    simp only [Except.ok.injEq] at h
    subst h
    exact ⟨d, hj, hend⟩
  | some d0 =>
    cases hpoll : d0.pollResult with
    | none =>
      rw [check_one_running eoe ds i d0 hi hpoll] at h
      simp only [Except.ok.injEq] at h
      subst h
      exact ⟨d, hj, hend⟩
    | some code =>
      rw [check_one_some eoe ds i d0 code hi hpoll] at h
      by_cases hde : d0.has_ended = true
      · rw [if_pos hde] at h
        simp only [Except.ok.injEq] at h
        subst h
        exact ⟨d, hj, hend⟩
      · rw [if_neg hde] at h
        by_cases hji : j = i
        · subst hji
          rw [hi] at hj
          simp only [Option.some.injEq] at hj
          subst hj
          exact absurd hend hde
        · have hset : (ds.set i (end_record d0 code))[j]? = some d := by
            rw [List.getElem?_set_ne (Ne.symm hji)]
            exact hj
          by_cases hc : (code == 0) = true
          · rw [if_pos hc] at h
            simp only [Except.ok.injEq] at h
            subst h
            exact ⟨d, hset, hend⟩
          · rw [if_neg hc] at h
            by_cases he : eoe = true
            · rw [if_pos he] at h
              exact kill_deployments_mono _ out j d h hset hend
            · rw [if_neg he] at h
              simp only [Except.ok.injEq] at h
              subst h
              exact ⟨d, hset, hend⟩

/-- An ended record stays present and ended across the full inner loop. -/
theorem check_pass_from_mono (eoe : Bool) :
    ∀ (gas i : Nat) (ds out : List DeploymentWrapper) (j : Nat)
      (d : DeploymentWrapper),
      check_pass_from eoe gas i ds = .ok out → ds[j]? = some d →
      d.has_ended = true → ∃ d2, out[j]? = some d2 ∧ d2.has_ended = true := by
  intro gas
  induction gas with
  | zero =>
    intro i ds out j d h hj hend
    simp only [check_pass_from, Except.ok.injEq] at h
    subst h
    exact ⟨d, hj, hend⟩
  | succ gas ih =>
    intro i ds out j d h hj hend
    obtain ⟨dsm, hone, hrest⟩ := check_pass_from_succ_ok eoe gas i ds out h
    obtain ⟨d2, hj2, hend2⟩ := check_one_mono eoe ds dsm i j d hone hj hend
    exact ih (i + 1) dsm out j d2 hrest hj2 hend2

/-- Claim C7: a record's log sink is open exactly while `has_ended` is false.
The sink is open and the record unended at dispatch; every monitor pass
and every forced termination preserves the open-iff-not-ended invariant
(each transition that sets `has_ended` closes the sink in the same step),
and neither ever reverts `has_ended` to false. -/
theorem log_sink_open_iff_not_ended (cleanup redeploy : Bool) (inv : Inventory) :
    ((run_deployment cleanup redeploy inv).logOpen = true ∧
     (run_deployment cleanup redeploy inv).has_ended = false) ∧
    (∀ (eoe : Bool) (ds out : List DeploymentWrapper),
      (∀ d ∈ ds, d.logOpen = !d.has_ended) → check_pass eoe ds = .ok out →
      ∀ d ∈ out, d.logOpen = !d.has_ended) ∧
    (∀ ds out : List DeploymentWrapper,
      (∀ d ∈ ds, d.logOpen = !d.has_ended) → kill_deployments ds = .ok out →
      ∀ d ∈ out, d.logOpen = !d.has_ended) ∧
    (∀ (eoe : Bool) (ds out : List DeploymentWrapper) (j : Nat)
      (d : DeploymentWrapper),
      check_pass eoe ds = .ok out → ds[j]? = some d → d.has_ended = true →
      ∃ d2, out[j]? = some d2 ∧ d2.has_ended = true) ∧
    (∀ (ds out : List DeploymentWrapper) (j : Nat) (d : DeploymentWrapper),
      kill_deployments ds = .ok out → ds[j]? = some d → d.has_ended = true →
      ∃ d2, out[j]? = some d2 ∧ d2.has_ended = true) := by
  refine ⟨⟨rfl, rfl⟩, ?_, ?_, ?_, ?_⟩
  · intro eoe ds out hall h
    exact check_pass_from_log eoe ds.length 0 ds out hall h
  · intro ds out hall h
    exact kill_deployments_log ds out hall h
  · intro eoe ds out j d h hj hend
    exact check_pass_from_mono eoe ds.length 0 ds out j d h hj hend
  · intro ds out j d h hj hend
    exact kill_deployments_mono ds out j d h hj hend

/-- Witness for C7: the invariant evaluated on concrete records: a fresh
record has its sink open, a pass over an ended record keeps the invariant,
and a forced termination keeps an ended record ended. -/
theorem log_sink_open_iff_not_ended_witness :
    (run_deployment false false inv_a).logOpen = true ∧
    success_record.logOpen = !success_record.has_ended ∧
    failed_record.has_ended = true := by
  refine ⟨(log_sink_open_iff_not_ended false false inv_a).1.1,
    (log_sink_open_iff_not_ended false false inv_a).2.1 false [success_record]
      [success_record] (by decide) rfl success_record
      (List.mem_singleton_self success_record), ?_⟩
  obtain ⟨d2, hd2, hend⟩ :=
    (log_sink_open_iff_not_ended false false inv_a).2.2.2.2
      [failed_record] [failed_record] 0 failed_record rfl rfl rfl
  simp only [List.getElem?_cons_zero, Option.some.injEq] at hd2
  subst hd2
  exact hend

end Deploy
